import Mathlib

/-!
Shallow embedding of the Gemini-Transcriber pipeline (src/app.py).

Python string primitives are modelled on `List Char` with structural
recursion, so every definition evaluates by `decide` / `rfl`:
  * `str.strip()` / `str.strip('[]')`  →  `pyStrip` / `stripBrackets`
  * `str.split()` (whitespace)         →  `pyWords`
  * `str.split(c)` (single separator)  →  `splitOnChar`
  * `str.replace(" ", "")`             →  `List.filter`
  * `int(s)` (base 10, optional sign, underscores between digits)
                                       →  `pyInt`
ASCII whitespace / digits model Python's (the Unicode extras are not
exercised by this pipeline).
-/

namespace App

/-- Whitespace characters of Python's `str.strip()` / `str.split()` (ASCII part). -/
def pyIsSpace (c : Char) : Bool :=
  c = ' ' || c = '\t' || c = '\n' || c = '\r' || c = '\x0b' || c = '\x0c'

/-- Python `str.strip()` on a character list. -/
def pyStrip (cs : List Char) : List Char :=
  ((cs.dropWhile pyIsSpace).reverse.dropWhile pyIsSpace).reverse

/-- Python `str.strip('[]')`: remove leading and trailing `[` / `]` characters. -/
def stripBrackets (cs : List Char) : List Char :=
  let isBr : Char → Bool := fun c => c = '[' || c = ']'
  ((cs.dropWhile isBr).reverse.dropWhile isBr).reverse

/-- Python `str.split(sep)` for a one-character separator: keeps empty pieces. -/
def splitOnChar (c : Char) : List Char → List (List Char)
  | [] => [[]]
  | x :: xs =>
    if x = c then [] :: splitOnChar c xs
    else
      match splitOnChar c xs with
      | [] => [[x]]
      | g :: gs => (x :: g) :: gs

/-- Split on every character satisfying `p`, keeping empty pieces. -/
def splitPred (p : Char → Bool) : List Char → List (List Char)
  | [] => [[]]
  | x :: xs =>
    if p x then [] :: splitPred p xs
    else
      match splitPred p xs with
      | [] => [[x]]
      | g :: gs => (x :: g) :: gs

/-- Python `str.split()` with no argument: split on whitespace runs, no empty words. -/
def pyWords (cs : List Char) : List (List Char) :=
  (splitPred pyIsSpace cs).filter (fun w => !w.isEmpty)

/-- Python `len(set(l)) == 1` for a list of characters. -/
def allSameChar : List Char → Bool
  | [] => false
  | c :: rest => rest.all (fun d => d == c)

/-- Python `len(set(l)) == 1` for a list of strings (as character lists). -/
def allSameList : List (List Char) → Bool
  | [] => false
  | w :: rest => rest.all (fun v => v == w)

/-- The list `[' '.join(words[i:i+2]) for i in range(0, len(words)-1)]` of
overlapping two-word windows (source line 120). -/
def wordPairs : List (List Char) → List (List Char)
  | w₁ :: w₂ :: rest => (w₁ ++ ' ' :: w₂) :: wordPairs (w₂ :: rest)
  | _ => []

/-- Tail of a Python integer literal after its first digit: digits with single
underscores allowed between digits. -/
def digitTail : List Char → Bool
  | [] => true
  | c :: rest =>
    if c = '_' then
      match rest with
      | [] => false
      | d :: rest₂ => d.isDigit && digitTail rest₂
    else c.isDigit && digitTail rest

/-- Valid unsigned body of a Python `int()` argument: nonempty, starts with a
digit, underscores only between digits. -/
def digitsOk : List Char → Bool
  | [] => false
  | c :: rest => c.isDigit && digitTail rest

/-- Numeric value of a digit/underscore run. -/
def digitsVal (cs : List Char) : Nat :=
  cs.foldl (fun acc c => if c = '_' then acc else acc * 10 + (c.toNat - 48)) 0

/-- Python `int(s)`: optional surrounding whitespace, optional sign, base-10
digits with optional single underscores between digits; `none` models the
`ValueError` the source catches. -/
def pyInt (cs : List Char) : Option Int :=
  match pyStrip cs with
  | [] => none
  | c :: rest =>
    if c = '+' then (if digitsOk rest then some (Int.ofNat (digitsVal rest)) else none)
    else if c = '-' then (if digitsOk rest then some (-(Int.ofNat (digitsVal rest))) else none)
    else (if digitsOk (c :: rest) then some (Int.ofNat (digitsVal (c :: rest))) else none)

/-- Source `parse_timestamp` (app.py lines 86-92): strip `[`/`]`, split on `:`,
require exactly two integer fields, return `mm * 60 + ss`; any failure is `none`. -/
def parse_timestamp (timestamp_str : String) : Option Int :=
  match splitOnChar ':' (stripBrackets timestamp_str.data) with
  | [a, b] =>
    match pyInt a, pyInt b with
    | some mm, some ss => some (mm * 60 + ss)
    | _, _ => none
  | _ => none

/-- Source `detect_repetition_pattern` (app.py lines 101-124). -/
def detect_repetition_pattern (text : String) : Bool :=
  if text = "" then true
  else
    let chars := text.data.filter (fun c => !(c == ' '))
    if 2 < chars.length ∧ allSameChar chars then true
    else
      let words := pyWords text.data
      if 2 < words.length then
        if allSameList words then true
        else if 4 < words.length ∧ allSameList (wordPairs words) then true
        else false
      else false

/-- Source `is_valid_text` (app.py lines 126-143). -/
def is_valid_text (text : String) (seen_texts : List String) (last_text : String) : Bool :=
  if text = "" then false
  else if detect_repetition_pattern text then false
  else if text ∈ seen_texts then false
  else if text = last_text then false
  else true

/-- A rendered subtitle entry of `format_srt` (fields of the block
`f"{current_entry}\n{start_stamp} --> {end_stamp}\n{text}\n"`). -/
structure SubtitleEntry where
  index : Nat
  start_seconds : Int
  end_seconds : Int
  text : String
deriving DecidableEq, Repr

/-- Mutable state of the `format_srt` loop (app.py lines 147-152), minus the
accumulated `entries` list which `formatSrtGo` returns. -/
structure SrtState where
  seen_timestamps : List Int
  seen_texts : List String
  current_entry : Nat
  last_end_time : Int
  last_text : String
deriving DecidableEq, Repr

/-- Initial loop state of `format_srt`. -/
def initState : SrtState :=
  { seen_timestamps := [], seen_texts := [], current_entry := 1,
    last_end_time := 0, last_text := "" }

/-- Source line 160: `line[line.find('['): line.find(']') + 1]`.  When `]` is
absent Python's `find` yields `-1`, so the slice `line[f1:0]` is empty. -/
def extractTimestampPart (cs : List Char) : String :=
  match cs.findIdx? (fun c => c == ']') with
  | none => ""
  | some f2 => ⟨(cs.drop (cs.findIdx (fun c => c == '['))).take
      (f2 + 1 - cs.findIdx (fun c => c == '['))⟩

/-- Source line 161: `line[line.find(']') + 1:].strip()`; with `]` absent the
slice index is `-1 + 1 = 0`, i.e. the whole line. -/
def extractText (cs : List Char) : String :=
  match cs.findIdx? (fun c => c == ']') with
  | none => ⟨pyStrip cs⟩
  | some f2 => ⟨pyStrip (cs.drop (f2 + 1))⟩

/-- One iteration of the `format_srt` loop (app.py lines 154-189): returns the
updated state and the entry emitted for this line, if any.  All `continue`
paths return the state unchanged. -/
def processLine (st : SrtState) (line : String) : SrtState × Option SubtitleEntry :=
  if pyStrip line.data = [] ∨ '[' ∉ line.data then (st, none)
  else
    let text := extractText line.data
    if is_valid_text text st.seen_texts st.last_text then
      match parse_timestamp (extractTimestampPart line.data) with
      | none => (st, none)
      | some t =>
        if t ∈ st.seen_timestamps then (st, none)
        else
          let start_time := max t (st.last_end_time + 1)
          let end_time := start_time + 3
          ({ seen_timestamps := start_time :: st.seen_timestamps,
             seen_texts := text :: st.seen_texts,
             current_entry := st.current_entry + 1,
             last_end_time := end_time,
             last_text := text },
           some { index := st.current_entry, start_seconds := start_time,
                  end_seconds := end_time, text := text })
    else (st, none)

/-- Fold of `processLine` over the lines, collecting emitted entries in order. -/
def formatSrtGo (st : SrtState) : List String → List SubtitleEntry
  | [] => []
  | l :: ls =>
    match processLine st l with
    | (st', some e) => e :: formatSrtGo st' ls
    | (st', none) => formatSrtGo st' ls

/-- Python `timestamps_text.split('\n')` as a list of lines. -/
def splitLines (s : String) : List String :=
  (splitOnChar '\n' s.data).map (fun cs => (⟨cs⟩ : String))

/-- The structured output of `format_srt`: the SubtitleEntry sequence produced
by one normalization pass over `timestamps_text`. -/
def format_srt_entries (timestamps_text : String) : List SubtitleEntry :=
  formatSrtGo initState (splitLines timestamps_text)

/-- Python `f"{n:02d}"`. -/
def pad2 (n : Int) : String :=
  if 0 ≤ n ∧ n < 10 then "0" ++ toString n else toString n

/-- Source `format_srt_timestamp` (app.py lines 94-99); Python `//` and `%` are
floor division and floor modulus on `Int`. -/
def format_srt_timestamp (seconds : Int) : String :=
  pad2 (seconds.fdiv 3600) ++ ":" ++ pad2 ((seconds.fmod 3600).fdiv 60) ++ ":"
    ++ pad2 (seconds.fmod 60) ++ ",000"

/-- One block appended to `entries` (app.py line 181). -/
def renderEntry (e : SubtitleEntry) : String :=
  toString e.index ++ "\n" ++ format_srt_timestamp e.start_seconds ++ " --> "
    ++ format_srt_timestamp e.end_seconds ++ "\n" ++ e.text ++ "\n"

/-- Python `'\n'.join(l)`. -/
def joinNl : List String → String
  | [] => ""
  | x :: xs => xs.foldl (fun a b => a ++ "\n" ++ b) x

/-- Source `format_srt` (app.py lines 145-191): the rendered SRT text. -/
def format_srt (timestamps_text : String) : String :=
  joinNl ((format_srt_entries timestamps_text).map renderEntry)

/-- One audio slice of `split_audio`: Python `audio[start:end]` bounds in
milliseconds plus the recorded `start_time` in whole seconds. -/
structure AudioSegmentSlice where
  startMs : Nat
  stopMs : Nat
  start_time : Nat
deriving DecidableEq, Repr

/-- Python `math.ceil(a / b)` for natural `a`, positive natural `b`. -/
def ceilDiv (a b : Nat) : Nat := (a + b - 1) / b

/-- Source `split_audio` (app.py lines 47-71): `num_segments = ceil(length /
segment_duration)`; segment `i` is `audio[i*S : min((i+1)*S, length)]` and
records `start_time = (i*S) // 1000`. -/
def split_audio (length_ms : Nat) (segment_duration : Nat) : List AudioSegmentSlice :=
  (List.range (ceilDiv length_ms segment_duration)).map fun i =>
    { startMs := i * segment_duration,
      stopMs := min ((i + 1) * segment_duration) length_ms,
      start_time := i * segment_duration / 1000 }

/-- The per-segment loop of `transcribe` (app.py lines 206-226): each chunk's
transcription either raises (`Except.error`, caught and skipped) or returns
text, appended to `all_transcripts` when its strip is nonempty. -/
def collectTranscripts : List (Except String String) → List String
  | [] => []
  | Except.error _ :: rs => collectTranscripts rs
  | Except.ok t :: rs =>
    if pyStrip t.data = [] then collectTranscripts rs else t :: collectTranscripts rs

/-- Source `transcript = "\n".join(all_transcripts)` (app.py line 229). -/
def combined_transcript (rs : List (Except String String)) : String :=
  joinNl (collectTranscripts rs)

end App

namespace App

/-! ### Helper lemmas about the `format_srt` loop -/

/-- Unfolding of `formatSrtGo` on a cons cell. -/
theorem formatSrtGo_cons (st : SrtState) (l : String) (ls : List String) :
    formatSrtGo st (l :: ls) =
      match processLine st l with
      | (st', some e) => e :: formatSrtGo st' ls
      | (st', none) => formatSrtGo st' ls := rfl

theorem formatSrtGo_cons_some {st st' : SrtState} {l : String} {e : SubtitleEntry}
    (ls : List String) (hp : processLine st l = (st', some e)) :
    formatSrtGo st (l :: ls) = e :: formatSrtGo st' ls := by
  rw [formatSrtGo_cons, hp]

theorem formatSrtGo_cons_none {st st' : SrtState} {l : String}
    (ls : List String) (hp : processLine st l = (st', none)) :
    formatSrtGo st (l :: ls) = formatSrtGo st' ls := by
  rw [formatSrtGo_cons, hp]

/-- Every `continue` path of the loop body leaves the loop state untouched. -/
theorem processLine_none {st st' : SrtState} {line : String}
    (h : processLine st line = (st', none)) : st' = st := by
  by_cases h1 : pyStrip line.data = [] ∨ '[' ∉ line.data
  · simp [processLine, h1] at h
    exact h.symm
  · by_cases h2 : is_valid_text (extractText line.data) st.seen_texts st.last_text
    · rcases h3 : parse_timestamp (extractTimestampPart line.data) with _ | t
      · simp [processLine, h1, h2, h3] at h
        exact h.symm
      · by_cases h4 : t ∈ st.seen_timestamps
        · simp [processLine, h1, h2, h3, h4] at h
          exact h.symm
        · simp [processLine, h1, h2, h3, h4] at h
    · simp [processLine, h1, h2] at h
      exact h.symm

/-- A text accepted by `is_valid_text` is not among the already-seen texts. -/
theorem is_valid_text_not_mem {t : String} {seen : List String} {last : String}
    (h : is_valid_text t seen last = true) : t ∉ seen := by
  unfold is_valid_text at h
  repeat' split at h
  all_goals simp_all

/-- Facts about an emitted entry: its start is clamped above the previous end,
its duration is 3, and the updated state records it. -/
theorem processLine_some {st st' : SrtState} {line : String} {e : SubtitleEntry}
    (h : processLine st line = (st', some e)) :
    st.last_end_time + 1 ≤ e.start_seconds ∧
    e.end_seconds = e.start_seconds + 3 ∧
    st'.last_end_time = e.end_seconds ∧
    st'.seen_texts = e.text :: st.seen_texts ∧
    e.text ∉ st.seen_texts ∧
    e.index = st.current_entry ∧
    st'.current_entry = st.current_entry + 1 := by
  by_cases h1 : pyStrip line.data = [] ∨ '[' ∉ line.data
  · simp [processLine, h1] at h
  · by_cases h2 : is_valid_text (extractText line.data) st.seen_texts st.last_text
    · rcases h3 : parse_timestamp (extractTimestampPart line.data) with _ | t
      · simp [processLine, h1, h2, h3] at h
      · by_cases h4 : t ∈ st.seen_timestamps
        · simp [processLine, h1, h2, h3, h4] at h
        · simp [processLine, h1, h2, h3, h4] at h
          obtain ⟨hst, he⟩ := h
          subst hst
          subst he
          refine ⟨le_max_right _ _, rfl, rfl, rfl, ?_, rfl, rfl⟩
          exact is_valid_text_not_mem h2
    · simp [processLine, h1, h2] at h

/-- Every entry the loop emits starts at least one second after the incoming
previous-end cursor, and lasts exactly 3 seconds. -/
theorem formatSrtGo_bound (ls : List String) :
    ∀ (st : SrtState) (e : SubtitleEntry), e ∈ formatSrtGo st ls →
      st.last_end_time + 1 ≤ e.start_seconds ∧ e.end_seconds = e.start_seconds + 3 := by
  induction ls with
  | nil =>
    intro st e h
    simp [formatSrtGo] at h
  | cons l ls ih =>
    intro st e h
    rcases hp : processLine st l with ⟨st', o⟩
    cases o with
    | none =>
      rw [formatSrtGo_cons_none ls hp] at h
      have hst : st' = st := processLine_none hp
      subst hst
      exact ih st' e h
    | some e₀ =>
      rw [formatSrtGo_cons_some ls hp] at h
      have hs := processLine_some hp
      rcases List.mem_cons.mp h with he | he
      · subst he
        exact ⟨hs.1, hs.2.1⟩
      · have ihe := ih st' e he
        have h1 : st.last_end_time + 1 ≤ e₀.start_seconds := hs.1
        have h2 : e₀.end_seconds = e₀.start_seconds + 3 := hs.2.1
        have h3 : st'.last_end_time = e₀.end_seconds := hs.2.2.1
        exact ⟨by omega, ihe.2⟩

/-- Adjacent emitted entries are separated by at least one second of gap. -/
theorem formatSrtGo_adjacent (ls : List String) :
    ∀ (st : SrtState) (i : Nat) (e₁ e₂ : SubtitleEntry),
      (formatSrtGo st ls)[i]? = some e₁ → (formatSrtGo st ls)[i + 1]? = some e₂ →
      e₁.end_seconds + 1 ≤ e₂.start_seconds := by
  induction ls with
  | nil =>
    intro st i e₁ e₂ h₁ h₂
    simp [formatSrtGo] at h₁
  | cons l ls ih =>
    intro st i e₁ e₂ h₁ h₂
    rcases hp : processLine st l with ⟨st', o⟩
    cases o with
    | none =>
      rw [formatSrtGo_cons_none ls hp] at h₁ h₂
      exact ih st' i e₁ e₂ h₁ h₂
    | some e₀ =>
      rw [formatSrtGo_cons_some ls hp] at h₁ h₂
      cases i with
      | zero =>
        rw [List.getElem?_cons_zero] at h₁
        rw [List.getElem?_cons_succ] at h₂
        have he₁ : e₀ = e₁ := by injection h₁
        subst he₁
        have hmem : e₂ ∈ formatSrtGo st' ls := List.getElem?_mem h₂
        have hb := (formatSrtGo_bound ls st' e₂ hmem).1
        have hs := processLine_some hp
        have h3 : st'.last_end_time = e₀.end_seconds := hs.2.2.1
        omega
      | succ j =>
        rw [List.getElem?_cons_succ] at h₁ h₂
        exact ih st' j e₁ e₂ h₁ h₂

/-- The emitted texts avoid the incoming seen-set and are pairwise distinct. -/
theorem formatSrtGo_texts (ls : List String) :
    ∀ st : SrtState,
      (∀ e ∈ formatSrtGo st ls, e.text ∉ st.seen_texts) ∧
      ((formatSrtGo st ls).map SubtitleEntry.text).Nodup := by
  induction ls with
  | nil =>
    intro st
    simp [formatSrtGo]
  | cons l ls ih =>
    intro st
    rcases hp : processLine st l with ⟨st', o⟩
    cases o with
    | none =>
      rw [formatSrtGo_cons_none ls hp]
      have hst : st' = st := processLine_none hp
      subst hst
      exact ih st'
    | some e₀ =>
      rw [formatSrtGo_cons_some ls hp]
      have hs := processLine_some hp
      have hseen : st'.seen_texts = e₀.text :: st.seen_texts := hs.2.2.2.1
      have hnm : e₀.text ∉ st.seen_texts := hs.2.2.2.2.1
      obtain ⟨ih1, ih2⟩ := ih st'
      constructor
      · intro e he
        rcases List.mem_cons.mp he with he | he
        · subst he
          exact hnm
        · have hni := ih1 e he
          rw [hseen] at hni
          intro hmem
          exact hni (List.mem_cons_of_mem _ hmem)
      · rw [List.map_cons]
        refine List.nodup_cons.mpr ⟨?_, ih2⟩
        intro hmem
        rcases List.mem_map.mp hmem with ⟨e, heMem, hEq⟩
        have hni := ih1 e heMem
        rw [hseen] at hni
        apply hni
        rw [hEq]
        exact List.mem_cons_self _ _

end App

namespace App

/-! ### Character-provenance lemmas for `parse_timestamp` -/

/-- Characters surviving a strip of both ends come from the original list. -/
theorem strip_ends_subset (p : Char → Bool) (cs : List Char) (c : Char)
    (h : c ∈ ((cs.dropWhile p).reverse.dropWhile p).reverse) : c ∈ cs := by
  rw [List.mem_reverse] at h
  have h2 : c ∈ (cs.dropWhile p).reverse := (List.dropWhile_sublist _).subset h
  rw [List.mem_reverse] at h2
  exact (List.dropWhile_sublist _).subset h2

theorem mem_of_mem_pyStrip {c : Char} {cs : List Char} (h : c ∈ pyStrip cs) : c ∈ cs :=
  strip_ends_subset pyIsSpace cs c h

theorem mem_of_mem_stripBrackets {c : Char} {cs : List Char}
    (h : c ∈ stripBrackets cs) : c ∈ cs :=
  strip_ends_subset _ cs c h

/-- Characters of any piece of `splitOnChar` come from the original list. -/
theorem splitOnChar_subset (sep : Char) :
    ∀ (cs : List Char) (piece : List Char), piece ∈ splitOnChar sep cs →
      ∀ x, x ∈ piece → x ∈ cs := by
  intro cs
  induction cs with
  | nil =>
    intro piece hp x hx
    simp [splitOnChar] at hp
    subst hp
    simp at hx
  | cons a as ih =>
    intro piece hp x hx
    unfold splitOnChar at hp
    by_cases ha : a = sep
    · rw [if_pos ha] at hp
      rcases List.mem_cons.mp hp with h | h
      · subst h
        simp at hx
      · exact List.mem_cons_of_mem _ (ih piece h x hx)
    · rw [if_neg ha] at hp
      rcases hrec : splitOnChar sep as with _ | ⟨g, gs⟩
      · rw [hrec] at hp
        simp at hp
        subst hp
        simp at hx
        subst hx
        exact List.mem_cons_self _ _
      · rw [hrec] at hp
        rcases List.mem_cons.mp hp with h | h
        · subst h
          rcases List.mem_cons.mp hx with h' | h'
          · subst h'
            exact List.mem_cons_self _ _
          · have hg : x ∈ as := by
              refine ih g ?_ x h'
              rw [hrec]
              exact List.mem_cons_self _ _
            exact List.mem_cons_of_mem _ hg
        · refine List.mem_cons_of_mem _ (ih piece ?_ x hx)
          rw [hrec]
          exact List.mem_cons_of_mem _ h

/-- Without a minus sign in its input, Python `int()` returns a nonnegative value. -/
theorem pyInt_nonneg {cs : List Char} {v : Int} (hm : '-' ∉ cs)
    (h : pyInt cs = some v) : 0 ≤ v := by
  unfold pyInt at h
  rcases ht : pyStrip cs with _ | ⟨c, rest⟩
  · rw [ht] at h
    simp at h
  · rw [ht] at h
    dsimp only at h
    by_cases hplus : c = '+'
    · rw [if_pos hplus] at h
      split at h
      · injection h with h
        rw [← h]
        exact Int.ofNat_nonneg _
      · simp at h
    · by_cases hminus : c = '-'
      · exfalso
        apply hm
        have hc : c ∈ pyStrip cs := by
          rw [ht]
          exact List.mem_cons_self _ _
        rw [hminus] at hc
        exact mem_of_mem_pyStrip hc
      · rw [if_neg hplus, if_neg hminus] at h
        split at h
        · injection h with h
          rw [← h]
          exact Int.ofNat_nonneg _
        · simp at h

end App

namespace App

/-! ### Claims -/

/-- C1: the spec says a repeating 2-word cycle such as
`"foo bar foo bar foo bar"` is rejected by the Hallucination Filter.  The code
builds the *overlapping* bigrams `["foo bar", "bar foo", …]` (stride 1, not 2),
whose set has two elements, so `detect_repetition_pattern` returns `false`,
`is_valid_text` returns `true`, and the line flows into the subtitle output. -/
theorem c1_repeating_bigram_accepted :
    detect_repetition_pattern "foo bar foo bar foo bar" = false ∧
    is_valid_text "foo bar foo bar foo bar" [] "" = true ∧
    format_srt_entries "[00:10] foo bar foo bar foo bar" =
      [⟨1, 10, 13, "foo bar foo bar foo bar"⟩] :=
  ⟨by decide, by decide, by decide⟩

/-- C2: adjacent SubtitleEntry values of a normalization pass satisfy
`next.start_seconds ≥ prev.end_seconds + 1`, and every entry has
`end_seconds > start_seconds`. -/
theorem c2_monotonic_gap (text : String) (i : Nat) (e₁ e₂ : SubtitleEntry)
    (h₁ : (format_srt_entries text)[i]? = some e₁)
    (h₂ : (format_srt_entries text)[i + 1]? = some e₂) :
    e₁.end_seconds + 1 ≤ e₂.start_seconds ∧
    e₁.start_seconds < e₁.end_seconds ∧ e₂.start_seconds < e₂.end_seconds := by
  unfold format_srt_entries at h₁ h₂
  refine ⟨formatSrtGo_adjacent _ _ i e₁ e₂ h₁ h₂, ?_, ?_⟩
  · have hb := (formatSrtGo_bound _ _ e₁ (List.getElem?_mem h₁)).2
    omega
  · have hb := (formatSrtGo_bound _ _ e₂ (List.getElem?_mem h₂)).2
    omega

theorem c2_monotonic_gap_witness :
    (format_srt_entries "[00:10] A\n[00:11] B")[0]? = some ⟨1, 10, 13, "A"⟩ ∧
    (format_srt_entries "[00:10] A\n[00:11] B")[0 + 1]? = some ⟨2, 14, 17, "B"⟩ ∧
    ((13 : Int) + 1 ≤ 14 ∧ (10 : Int) < 13 ∧ (14 : Int) < 17) :=
  ⟨by decide, by decide,
    c2_monotonic_gap "[00:10] A\n[00:11] B" 0 ⟨1, 10, 13, "A"⟩ ⟨2, 14, 17, "B"⟩
      (by decide) (by decide)⟩

/-- C3: for a line that passes the blank/bracket guard, text validation, and
timestamp parsing with reported timestamp `t`, the duplicate start-time guard
drops the line exactly when `t` is in `seen_timestamps` (the set of start times
used in this pass); otherwise the line is not dropped and produces an entry.
The guard leaves the state unchanged, and is separate from `is_valid_text`'s
text-duplicate suppression, which was already passed here. -/
theorem c3_duplicate_start_guard (st : SrtState) (line : String) (t : Int)
    (hline : ¬(pyStrip line.data = [] ∨ '[' ∉ line.data))
    (hvalid : is_valid_text (extractText line.data) st.seen_texts st.last_text = true)
    (hparse : parse_timestamp (extractTimestampPart line.data) = some t) :
    (t ∈ st.seen_timestamps → processLine st line = (st, none)) ∧
    (t ∉ st.seen_timestamps → ∃ e, (processLine st line).2 = some e) := by
  constructor
  · intro hmem
    simp [processLine, hline, hvalid, hparse, hmem]
  · intro hmem
    refine ⟨⟨st.current_entry, max t (st.last_end_time + 1),
      max t (st.last_end_time + 1) + 3, extractText line.data⟩, ?_⟩
    simp [processLine, hline, hvalid, hparse, hmem]

theorem c3_duplicate_start_guard_witness :
    processLine ⟨[5], [], 1, 0, ""⟩ "[00:05] Hi" = (⟨[5], [], 1, 0, ""⟩, none) :=
  (c3_duplicate_start_guard ⟨[5], [], 1, 0, ""⟩ "[00:05] Hi" 5
    (by decide) (by decide) (by decide)).1 (by decide)

/-- C4, counterexample: `parse_timestamp` accepts the bracketed token
`"[-1:05]"` — Python `int()` parses the signed field `-1` — and returns the
negative total `-55`, so "the returned value is a non-negative integer for all
token strings" is false. -/
theorem c4_negative_counterexample :
    parse_timestamp "[-1:05]" = some (-55) ∧ ¬(0 ≤ (-55 : Int)) :=
  ⟨by decide, by decide⟩

/-- C4, amended: whenever `parse_timestamp` accepts a token that contains no
minus sign (in particular every token of the canonical `[MM:SS]` digit form),
the returned value `minutes * 60 + seconds` is a non-negative integer. -/
theorem c4_nonneg_of_no_minus (s : String) (v : Int)
    (h : parse_timestamp s = some v) (hm : '-' ∉ s.data) : 0 ≤ v := by
  unfold parse_timestamp at h
  rcases hsp : splitOnChar ':' (stripBrackets s.data) with _ | ⟨a, rest⟩
  · rw [hsp] at h
    simp at h
  · rcases rest with _ | ⟨b, rest2⟩
    · rw [hsp] at h
      simp at h
    · rcases rest2 with _ | ⟨c, rest3⟩
      · rw [hsp] at h
        dsimp only at h
        rcases ha : pyInt a with _ | mm
        · rw [ha] at h
          simp at h
        · rcases hb : pyInt b with _ | ss
          · rw [ha, hb] at h
            simp at h
          · rw [ha, hb] at h
            dsimp only at h
            injection h with h
            have hma : '-' ∉ a := by
              intro hx
              exact hm (mem_of_mem_stripBrackets
                (splitOnChar_subset ':' (stripBrackets s.data) a
                  (by rw [hsp]; exact List.mem_cons_self _ _) '-' hx))
            have hmb : '-' ∉ b := by
              intro hx
              exact hm (mem_of_mem_stripBrackets
                (splitOnChar_subset ':' (stripBrackets s.data) b
                  (by rw [hsp]; exact List.mem_cons_of_mem _ (List.mem_cons_self _ _)) '-' hx))
            have h1 : 0 ≤ mm := pyInt_nonneg hma ha
            have h2 : 0 ≤ ss := pyInt_nonneg hmb hb
            omega
      · rw [hsp] at h
        simp at h

theorem c4_nonneg_witness :
    parse_timestamp "[00:05]" = some 5 ∧ (0 : Int) ≤ 5 :=
  ⟨by decide, c4_nonneg_of_no_minus "[00:05]" 5 (by decide) (by decide)⟩

/-- C5: every SubtitleEntry produced by a normalization pass has
`end_seconds - start_seconds = 3`. -/
theorem c5_fixed_duration (text : String) (e : SubtitleEntry)
    (h : e ∈ format_srt_entries text) : e.end_seconds - e.start_seconds = 3 := by
  unfold format_srt_entries at h
  have hb := (formatSrtGo_bound _ _ e h).2
  omega

theorem c5_fixed_duration_witness :
    (⟨1, 2, 5, "Hello there"⟩ : SubtitleEntry) ∈
      format_srt_entries "[00:02] Hello there" ∧
    ((5 : Int) - 2 = 3) :=
  ⟨by decide,
    c5_fixed_duration "[00:02] Hello there" ⟨1, 2, 5, "Hello there"⟩ (by decide)⟩

end App

namespace App

/-- C6: per-chunk failure isolation in `transcribe`: a failing chunk
contributes zero lines while every other chunk's raw text still reaches the
combined transcript — concretely, chunk 2 of 5 raising leaves chunks 1, 3, 4, 5
contributing.  An empty (whitespace-only) response likewise contributes
nothing without disturbing the rest. -/
theorem c6_chunk_isolation :
    (∀ (xs ys : List (Except String String)) (msg : String),
      collectTranscripts (xs ++ Except.error msg :: ys) =
        collectTranscripts xs ++ collectTranscripts ys) ∧
    (∀ (xs ys : List (Except String String)),
      collectTranscripts (xs ++ Except.ok "" :: ys) =
        collectTranscripts xs ++ collectTranscripts ys) ∧
    collectTranscripts [Except.ok "one", Except.error "service error",
        Except.ok "three", Except.ok "four", Except.ok "five"] =
      ["one", "three", "four", "five"] := by
  have happ : ∀ (r : Except String String), (∀ v, r = Except.ok v → pyStrip v.data = []) →
      ∀ (xs ys : List (Except String String)),
      collectTranscripts (xs ++ r :: ys) =
        collectTranscripts xs ++ collectTranscripts ys := by
    intro r hr xs ys
    induction xs with
    | nil =>
      cases r with
      | error msg => simp [collectTranscripts]
      | ok v => simp [collectTranscripts, hr v rfl]
    | cons x xs ih =>
      cases x with
      | error msg => simp [collectTranscripts, ih]
      | ok t =>
        by_cases ht : pyStrip t.data = []
        · simp [collectTranscripts, ht, ih]
        · simp [collectTranscripts, ht, ih]
  refine ⟨?_, ?_, by decide⟩
  · intro xs ys msg
    exact happ (Except.error msg) (by intro v hv; cases hv) xs ys
  · intro xs ys
    refine happ (Except.ok "") ?_ xs ys
    intro v hv
    injection hv with hv
    rw [← hv]
    decide

/-- C7: for segment size `S > 0` the Segmenter produces `ceil(D / S)` chunks;
chunk `i` is the slice `[i*S, min((i+1)*S, D))`, so offsets are `0, S, 2S, …`,
adjacent slices meet exactly (no gap, no overlap), the first starts at 0, the
last ends at `D`, and the recorded start offset is the truncated second value
`(i*S) / 1000`. -/
theorem c7_segment_coverage (D S : Nat) (hS : 0 < S) :
    (split_audio D S).length = ceilDiv D S ∧
    (∀ (i : Nat) (seg : AudioSegmentSlice), (split_audio D S)[i]? = some seg →
      seg.startMs = i * S ∧ seg.stopMs = min ((i + 1) * S) D ∧
      seg.start_time = i * S / 1000) ∧
    (∀ (i : Nat) (seg seg' : AudioSegmentSlice),
      (split_audio D S)[i]? = some seg → (split_audio D S)[i + 1]? = some seg' →
      seg.stopMs = seg'.startMs) ∧
    (∀ seg segs, split_audio D S = seg :: segs → seg.startMs = 0) ∧
    (0 < ceilDiv D S →
      ∃ seg, (split_audio D S)[ceilDiv D S - 1]? = some seg ∧ seg.stopMs = D) := by
  have hget : ∀ i : Nat, (split_audio D S)[i]? =
      if i < ceilDiv D S then
        some ⟨i * S, min ((i + 1) * S) D, i * S / 1000⟩ else none := by
    intro i
    by_cases hi : i < ceilDiv D S
    · simp [split_audio, List.getElem?_map, List.getElem?_range hi, hi]
    · rw [if_neg hi]
      apply List.getElem?_eq_none
      simp [split_audio]
      omega
  have hmul : ∀ j : Nat, j < ceilDiv D S → j * S < D := by
    intro j hj
    have hj' : j + 1 ≤ (D + S - 1) / S := by
      simpa [ceilDiv] using hj
    have h1 : (j + 1) * S ≤ D + S - 1 := (Nat.le_div_iff_mul_le hS).mp hj'
    have h2 : (j + 1) * S = j * S + S := by ring
    rw [h2] at h1
    omega
  have hD : D ≤ ceilDiv D S * S := by
    have h1 : (D + S - 1) / S < ceilDiv D S + 1 := by
      simp [ceilDiv]
    have h2 : D + S - 1 < (ceilDiv D S + 1) * S := (Nat.div_lt_iff_lt_mul hS).mp h1
    have h3 : (ceilDiv D S + 1) * S = ceilDiv D S * S + S := by ring
    rw [h3] at h2
    omega
  refine ⟨by simp [split_audio], ?_, ?_, ?_, ?_⟩
  · intro i seg h
    rw [hget i] at h
    split at h
    · injection h with h
      rw [← h]
      exact ⟨rfl, rfl, rfl⟩
    · simp at h
  · intro i seg seg' h h'
    rw [hget i] at h
    rw [hget (i + 1)] at h'
    split at h
    · split at h'
      · rename_i hi'
        injection h with h
        injection h' with h'
        rw [← h, ← h']
        dsimp only
        exact Nat.min_eq_left (Nat.le_of_lt (hmul (i + 1) hi'))
      · simp at h'
    · simp at h
  · intro seg segs heq
    have h0 := hget 0
    rw [heq, List.getElem?_cons_zero] at h0
    split at h0
    · injection h0 with h0
      rw [h0]
      simp
    · simp at h0
  · intro hn
    refine ⟨⟨(ceilDiv D S - 1) * S, D, (ceilDiv D S - 1) * S / 1000⟩, ?_, rfl⟩
    rw [hget (ceilDiv D S - 1), if_pos (by omega)]
    have hsucc : ceilDiv D S - 1 + 1 = ceilDiv D S := by omega
    rw [hsucc, Nat.min_eq_right hD]

theorem c7_segment_coverage_witness :
    (split_audio 7 3).length = ceilDiv 7 3 ∧
    (split_audio 7 3)[2]? = some ⟨6, 7, 0⟩ :=
  ⟨(c7_segment_coverage 7 3 (by decide)).1, by decide⟩

/-- C8: within one normalization pass the emitted entries' texts are pairwise
distinct — feeding the same text twice, even with different timestamps, yields
at most one entry, as in the spec's end-to-end example. -/
theorem c8_text_dedup :
    (∀ text : String, ((format_srt_entries text).map SubtitleEntry.text).Nodup) ∧
    format_srt_entries "[00:02] Hello there\n[00:05] Hello there" =
      [⟨1, 2, 5, "Hello there"⟩] := by
  constructor
  · intro text
    unfold format_srt_entries
    exact (formatSrtGo_texts _ initState).2
  · decide

/-- C9: rejection is atomic — whenever a line produces no entry the loop state
(`seen_timestamps`, `seen_texts`, `current_entry`, `last_end_time`,
`last_text`) is exactly the incoming state. -/
theorem c9_rejection_atomic (st : SrtState) (line : String)
    (h : (processLine st line).2 = none) : (processLine st line).1 = st := by
  rcases hp : processLine st line with ⟨st', o⟩
  rw [hp] at h
  dsimp only at h
  subst h
  exact processLine_none hp

theorem c9_rejection_atomic_witness :
    (processLine ⟨[2], ["Hello"], 2, 5, "Hello"⟩ "[00:07] Hello").1 =
      (⟨[2], ["Hello"], 2, 5, "Hello"⟩ : SrtState) :=
  c9_rejection_atomic ⟨[2], ["Hello"], 2, 5, "Hello"⟩ "[00:07] Hello" (by decide)

/-- C10: the previous-end cursor starts at 0, so every emitted entry has
`start_seconds ≥ 1`; a line reporting timestamp 0 yields an entry that starts
at second 1, never 0. -/
theorem c10_start_positive :
    initState.last_end_time = 0 ∧
    (∀ (text : String) (e : SubtitleEntry), e ∈ format_srt_entries text →
      1 ≤ e.start_seconds) ∧
    format_srt_entries "[00:00] Hello" = [⟨1, 1, 4, "Hello"⟩] := by
  refine ⟨rfl, ?_, by decide⟩
  intro text e he
  unfold format_srt_entries at he
  have hb := (formatSrtGo_bound _ initState e he).1
  have h0 : initState.last_end_time = 0 := rfl
  rw [h0] at hb
  omega

end App
